import Mathlib

/-!
# Verification of `analyze_repo.py`

A shallow embedding of the core of `analyze_repo.py`: the numstat parser,
the commit sequencer loop of `analyze`, the distribution estimator
`calculate_statistics`, and the outlier classifier `detect_ai_contribution`.

Python floats are modelled by `ℚ` (every arithmetic operation performed by
the program on the analysed values — integer sums, divisions, `* 100`,
quartile interpolation — is exact rational arithmetic); Python `None` by
`Option`; an uncaught Python exception by `Except.error`. The external
`git` invocations are the data source: a run is determined by the ordered
list of commits together with, for each commit, its date string and the
`(added, deleted)` aggregate obtained from its numstat text.
-/

/-- One commit's input data as consumed by the loop in `analyze`
(src/analyze_repo.py lines 124–151): the commit identifier, the `%ci`
date string, and the `(added, deleted)` totals that `parse_numstat`
returns for its snapshot (first commit) or for the diff against its
predecessor. -/
structure CommitInfo where
  commit : String
  date : String
  added : Nat
  deleted : Nat
deriving Repr, DecidableEq, Inhabited

/-- One entry of the `commit_data` list built in `analyze`
(lines 142–148): truncated identifier, date, `changes`, optional
`pct` (percent change, `None` for the first commit or when the previous
total is not positive), and the reconstructed running `total`. -/
structure CommitRecord where
  commit : String
  date : String
  changes : Nat
  pct : Option ℚ
  total : Int
deriving Repr, DecidableEq, Inhabited

/-- Splitting a character list on a single separator character, the
behaviour of Python's `line.split('\t')` and of the `'\n'` line splitting
of `output.splitlines()` on `git` output (`splitlines` drops a final empty
line that `split` keeps; an empty line contributes nothing to the parser,
so the two agree on every parse). -/
def splitOnChar (sep : Char) (l : List Char) : List (List Char) :=
  l.foldr
    (fun c acc =>
      match acc with
      | [] => [[c]]
      | cur :: rest => if c = sep then [] :: cur :: rest else (c :: cur) :: rest)
    [[]]

/-- Python `str.isdigit` on the fields occurring in `git` numstat output
(ASCII): true iff the field is nonempty and every character is a decimal
digit. -/
def pyIsdigit (s : List Char) : Bool :=
  !s.isEmpty && s.all Char.isDigit

/-- Python `int(s)` on a field that passed `pyIsdigit`: its decimal
value. -/
def pyInt (s : List Char) : Nat :=
  s.foldl (fun n c => n * 10 + (c.toNat - '0'.toNat)) 0

/-- `parse_numstat` (lines 24–32): fold over the lines of the raw numstat
output, adding the first two tab-separated fields of every line that has
at least two fields whose first two are both digit strings.  All other
lines are skipped; no exception can be raised (the function is total). -/
def parse_numstat (output : String) : Nat × Nat :=
  (splitOnChar '\n' output.toList).foldl
    (fun acc line =>
      match splitOnChar '\t' line with
      | p0 :: p1 :: _ =>
        if pyIsdigit p0 && pyIsdigit p1 then (acc.1 + pyInt p0, acc.2 + pyInt p1)
        else acc
      | _ => acc)
    (0, 0)

/-- Contribution of a single numstat line in the spec's wording (§4.1, §8):
a line whose first two tab-separated fields are valid non-negative integers
contributes the pair of their values; every other line contributes
`(0, 0)`. -/
def numstatLineContribution (line : List Char) : Nat × Nat :=
  match splitOnChar '\t' line with
  | p0 :: p1 :: _ =>
    if pyIsdigit p0 && pyIsdigit p1 then (pyInt p0, pyInt p1) else (0, 0)
  | _ => (0, 0)

/-- The spec's description of the parser (§4.1): the componentwise sum of
the per-line contributions over all lines. -/
def numstat_spec (output : String) : Nat × Nat :=
  ((splitOnChar '\n' output.toList).map numstatLineContribution).foldr
    (fun x acc => (x.1 + acc.1, x.2 + acc.2)) (0, 0)

/-- The dictionary built by `calculate_statistics` (lines 78–88).  The
Python entries `changes_std` and `pct_std` hold `statistics.stdev`, the
square root of the sample variance; the model stores the variances
`changes_var` and `pct_var` instead (the square root of a rational is
irrational in general; `stdev = sqrt var` is zero exactly when the
variance is, and the `(n−1)` denominator is visible on the variance). -/
structure Stats where
  changes_mean : ℚ
  changes_median : ℚ
  changes_var : ℚ
  pct_mean : ℚ
  pct_var : ℚ
  pct_changes : List ℚ
  pct_q1 : ℚ
  pct_q3 : ℚ
  pct_iqr : ℚ
deriving Repr, DecidableEq, Inhabited

/-- `detect_ai_contribution` (lines 35–61): `"N/A"` when the statistics
were computed from zero percent-change samples; otherwise the one-sided
IQR outlier test on `pct_change = changes/total*100` (or `0` when the
total is not positive). -/
def detect_ai_contribution (changes total_lines : ℚ) (stats : Stats) : String :=
  if stats.pct_changes = [] then "N/A"
  else
    let pct_change : ℚ := if total_lines > 0 then changes / total_lines * 100 else 0
    let q3 := stats.pct_q3
    let iqr := stats.pct_iqr
    if iqr > 0 then
      let iqrs_above_q3 := (pct_change - q3) / iqr
      if iqrs_above_q3 > 3 then "Likely AI"
      else if iqrs_above_q3 > 1.5 then "Possible AI"
      else "Likely Human"
    else "Likely Human"

/-- `statistics.mean` on a nonempty list of rationals: exact rational
mean. -/
def listMean (l : List ℚ) : ℚ :=
  l.sum / (l.length : ℚ)

/-- Ascending sort, as performed by `numpy` and `statistics` internally. -/
def sortAsc (l : List ℚ) : List ℚ :=
  l.insertionSort (· ≤ ·)

/-- `statistics.median`: middle element of the sorted list for odd length,
mean of the two middle elements for even length (callers guard the empty
case). -/
def listMedian (l : List ℚ) : ℚ :=
  let s := sortAsc l
  let n := s.length
  if n % 2 = 1 then s.getD (n / 2) 0
  else (s.getD (n / 2 - 1) 0 + s.getD (n / 2) 0) / 2

/-- The sample variance with `(n−1)` denominator, the square of
`statistics.stdev` (meaningful for `2 ≤ n`; the call site in
`calculate_statistics` guards `len > 1`). -/
def sampleVar (l : List ℚ) : ℚ :=
  (l.map (fun x => (x - listMean l) ^ 2)).sum / ((l.length : ℚ) - 1)

/-- Linear interpolation of a sorted sample list at the virtual index `h`,
as performed by `np.percentile`: interpolate between the element at
`⌊h⌋` and the next element (clamped to the last index). -/
def interpAt (s : List ℚ) (h : ℚ) : ℚ :=
  s.getD (Int.floor h).toNat 0 +
    (h - ((Int.floor h).toNat : ℚ)) *
      (s.getD (min ((Int.floor h).toNat + 1) (s.length - 1)) 0 -
        s.getD (Int.floor h).toNat 0)

/-- `np.percentile(a, p)` with the default linear interpolation: for the
ascending sort `s` of length `n`, interpolate at the virtual index
`h = p/100 * (n−1)`. -/
def percentile (l : List ℚ) (p : ℚ) : ℚ :=
  if (sortAsc l).length = 0 then 0
  else interpAt (sortAsc l) (p / 100 * (((sortAsc l).length : ℚ) - 1))

/-- `calculate_statistics` (lines 64–89).  `none` models the empty dict
`{}` returned for empty input data; otherwise every field of the summary
dictionary is built as in the source (`q1`/`q3` are the 25th/75th
percentiles of the defined percent changes when at least one sample
exists, else `0`; the standard-deviation entries are guarded by
`len > 1`, stored here as variances). -/
def calculate_statistics (data : List CommitRecord) : Option Stats :=
  if data = [] then none
  else
    let changes : List ℚ := data.map fun d => (d.changes : ℚ)
    let pct_changes : List ℚ := data.filterMap fun d => d.pct
    let q1 : ℚ := if 0 < pct_changes.length then percentile pct_changes 25 else 0
    let q3 : ℚ := if 0 < pct_changes.length then percentile pct_changes 75 else 0
    let iqr : ℚ := q3 - q1
    some
      { changes_mean := if changes = [] then 0 else listMean changes
        changes_median := if changes = [] then 0 else listMedian changes
        changes_var := if 1 < changes.length then sampleVar changes else 0
        pct_mean := if pct_changes = [] then 0 else listMean pct_changes
        pct_var := if 1 < pct_changes.length then sampleVar pct_changes else 0
        pct_changes := pct_changes
        pct_q1 := q1
        pct_q3 := q3
        pct_iqr := iqr }

/-- The record built for the initial commit (lines 128–134):
`total = added` from the full snapshot numstat, `changed = added +
deleted`, `pct = None`. -/
def firstRecord (c : CommitInfo) : CommitRecord :=
  { commit := c.commit.take 10
    date := c.date
    changes := c.added + c.deleted
    pct := none
    total := (c.added : Int) }

/-- The record built for a later commit (lines 135–140), given the
previous record's `total`: `changed = added + deleted`,
`total = prev_total + added − deleted`, and
`pct = changed / prev_total * 100` exactly when `prev_total > 0`
(the Python guard `prev_total and prev_total > 0` is equivalent to
`prev_total > 0` on an `int`). -/
def stepRecord (prevTotal : Int) (c : CommitInfo) : CommitRecord :=
  { commit := c.commit.take 10
    date := c.date
    changes := c.added + c.deleted
    pct :=
      if 0 < prevTotal then some (((c.added + c.deleted : Nat) : ℚ) / (prevTotal : ℚ) * 100)
      else none
    total := prevTotal + (c.added : Int) - (c.deleted : Int) }

/-- The commit loop of `analyze` (lines 124–151) as a fold: `prev_total`
is `none` before the first commit and `some` of the previous record's
`total` afterwards. -/
def seqRecords : Option Int → List CommitInfo → List CommitRecord
  | _, [] => []
  | none, c :: cs =>
    let r := firstRecord c
    r :: seqRecords (some r.total) cs
  | some t, c :: cs =>
    let r := stepRecord t c
    r :: seqRecords (some r.total) cs

/-- The full `commit_data` list produced by one run of `analyze`. -/
def analyzeRecords (commits : List CommitInfo) : List CommitRecord :=
  seqRecords none commits

/-- The percentage computed inside `detect_ai_contribution` (line 46) from
the arguments `analyze` passes it: `changes/total*100` when `total > 0`,
else `0`. -/
def classifierPct (changes total_lines : ℚ) : ℚ :=
  if total_lines > 0 then changes / total_lines * 100 else 0

/-- Line 159: `detect_ai_contribution(data['changes'], data['total'],
stats)` — the classifier receives the record's own `changes` and
`total`. -/
def commitLabel (stats : Stats) (r : CommitRecord) : String :=
  detect_ai_contribution (r.changes : ℚ) (r.total : ℚ) stats

/-- One full run of `analyze` on the given commit inputs: the commit
records, each commit's contribution label, and the statistics summary.
`Except.error` models an uncaught Python exception reaching `main` (which
catches only `CalledProcessError`): for an empty commit list
`calculate_statistics` returns the empty dict `{}` and `print_statistics`
then raises `KeyError` on its first lookup, `stats['changes_mean']`. -/
def analyzeRun (commits : List CommitInfo) :
    Except String (List CommitRecord × List String × Stats) :=
  let records := analyzeRecords commits
  match calculate_statistics records with
  | none => Except.error "KeyError: changes_mean"
  | some stats => Except.ok (records, records.map (commitLabel stats), stats)

/-! ## Helper lemmas -/

lemma sortAsc_sorted (l : List ℚ) : List.Sorted (· ≤ ·) (sortAsc l) :=
  List.sorted_insertionSort _ l

lemma sortAsc_length (l : List ℚ) : (sortAsc l).length = l.length :=
  List.length_insertionSort _ l

lemma sorted_getD_mono {s : List ℚ} (hs : List.Sorted (· ≤ ·) s) {i j : Nat}
    (hij : i ≤ j) (hj : j < s.length) : s.getD i 0 ≤ s.getD j 0 := by
  have hi : i < s.length := lt_of_le_of_lt hij hj
  rw [List.getD_eq_getElem s 0 hi, List.getD_eq_getElem s 0 hj]
  rcases eq_or_lt_of_le hij with rfl | hlt
  · exact le_refl _
  · exact List.pairwise_iff_getElem.mp hs i j hi hj hlt

lemma interpAt_mono {s : List ℚ} (hs : List.Sorted (· ≤ ·) s) (hne : s ≠ [])
    {h₁ h₂ : ℚ} (h0 : 0 ≤ h₁) (h12 : h₁ ≤ h₂) (hub : h₂ ≤ (s.length : ℚ) - 1) :
    interpAt s h₁ ≤ interpAt s h₂ := by
  have hn : 0 < s.length := List.length_pos.mpr hne
  have h0' : 0 ≤ h₂ := h0.trans h12
  have hf1 : (0 : ℤ) ≤ ⌊h₁⌋ := Int.floor_nonneg.mpr h0
  have hf2 : (0 : ℤ) ≤ ⌊h₂⌋ := Int.floor_nonneg.mpr h0'
  unfold interpAt
  set i₁ : ℕ := (⌊h₁⌋).toNat with hidef₁
  set i₂ : ℕ := (⌊h₂⌋).toNat with hidef₂
  have hi₁z : (i₁ : ℤ) = ⌊h₁⌋ := Int.toNat_of_nonneg hf1
  have hi₂z : (i₂ : ℤ) = ⌊h₂⌋ := Int.toNat_of_nonneg hf2
  have hle₁ : (i₁ : ℚ) ≤ h₁ := by
    have : ((i₁ : ℤ) : ℚ) ≤ h₁ := by rw [hi₁z]; exact Int.floor_le h₁
    exact_mod_cast this
  have hle₂ : (i₂ : ℚ) ≤ h₂ := by
    have : ((i₂ : ℤ) : ℚ) ≤ h₂ := by rw [hi₂z]; exact Int.floor_le h₂
    exact_mod_cast this
  have hlt₁ : h₁ < (i₁ : ℚ) + 1 := by
    have : h₁ < ((i₁ : ℤ) : ℚ) + 1 := by rw [hi₁z]; exact Int.lt_floor_add_one h₁
    exact_mod_cast this
  have hcastn : ((s.length - 1 : ℕ) : ℚ) = (s.length : ℚ) - 1 := by
    rw [Nat.cast_sub hn, Nat.cast_one]
  have hi₂le : i₂ ≤ s.length - 1 := by
    have h1 : (⌊h₂⌋ : ℚ) ≤ ((s.length - 1 : ℕ) : ℚ) :=
      (Int.floor_le h₂).trans (hub.trans_eq hcastn.symm)
    have h2 : ⌊h₂⌋ ≤ ((s.length - 1 : ℕ) : ℤ) := by exact_mod_cast h1
    exact Int.toNat_le.mpr h2
  have hi₁₂ : i₁ ≤ i₂ := Int.toNat_le_toNat (Int.floor_mono h12)
  have hi₁le : i₁ ≤ s.length - 1 := le_trans hi₁₂ hi₂le
  have hsub : s.length - 1 < s.length := Nat.sub_lt hn one_pos
  have hi₂lt : i₂ < s.length := lt_of_le_of_lt hi₂le hsub
  have hmin₁lt : min (i₁ + 1) (s.length - 1) < s.length :=
    lt_of_le_of_lt (min_le_right _ _) hsub
  have hmin₂lt : min (i₂ + 1) (s.length - 1) < s.length :=
    lt_of_le_of_lt (min_le_right _ _) hsub
  rcases eq_or_lt_of_le hi₁₂ with heq | hltidx
  · rw [← heq]
    have hlh₁ : s.getD i₁ 0 ≤ s.getD (min (i₁ + 1) (s.length - 1)) 0 :=
      sorted_getD_mono hs (le_min (Nat.le_succ _) hi₁le) hmin₁lt
    have := mul_le_mul_of_nonneg_right (sub_le_sub_right h12 (i₁ : ℚ))
      (sub_nonneg.mpr hlh₁)
    linarith
  · have hstep : i₁ + 1 ≤ i₂ := hltidx
    set lo₁ := s.getD i₁ 0 with hlo₁
    set hi₁ := s.getD (min (i₁ + 1) (s.length - 1)) 0 with hhi₁
    set lo₂ := s.getD i₂ 0 with hlo₂
    set hi₂ := s.getD (min (i₂ + 1) (s.length - 1)) 0 with hhi₂
    have hlh₁ : lo₁ ≤ hi₁ :=
      sorted_getD_mono hs (le_min (Nat.le_succ _) hi₁le) hmin₁lt
    have hlh₂ : lo₂ ≤ hi₂ :=
      sorted_getD_mono hs (le_min (Nat.le_succ _) hi₂le) hmin₂lt
    have key : hi₁ ≤ lo₂ :=
      sorted_getD_mono hs (le_trans (min_le_left _ _) hstep) hi₂lt
    have hup : lo₁ + (h₁ - (i₁ : ℚ)) * (hi₁ - lo₁) ≤ hi₁ := by
      have hm : (0 : ℚ) ≤ (1 - (h₁ - (i₁ : ℚ))) * (hi₁ - lo₁) :=
        mul_nonneg (by linarith) (by linarith)
      linarith
    have hdown : lo₂ ≤ lo₂ + (h₂ - (i₂ : ℚ)) * (hi₂ - lo₂) := by
      have hm : (0 : ℚ) ≤ (h₂ - (i₂ : ℚ)) * (hi₂ - lo₂) :=
        mul_nonneg (by linarith) (by linarith)
      linarith
    linarith

lemma percentile_mono (l : List ℚ) {p₁ p₂ : ℚ} (h0 : 0 ≤ p₁) (h12 : p₁ ≤ p₂)
    (h100 : p₂ ≤ 100) : percentile l p₁ ≤ percentile l p₂ := by
  unfold percentile
  by_cases hz : (sortAsc l).length = 0
  · simp [hz]
  · simp only [hz, if_false]
    have hne : sortAsc l ≠ [] := by
      intro h
      rw [h] at hz
      exact hz rfl
    have hn : 0 < (sortAsc l).length := Nat.pos_of_ne_zero hz
    have hcoef : (0 : ℚ) ≤ ((sortAsc l).length : ℚ) - 1 := by
      have : (1 : ℚ) ≤ ((sortAsc l).length : ℚ) := by exact_mod_cast hn
      linarith
    apply interpAt_mono (sortAsc_sorted l) hne
    · exact mul_nonneg (div_nonneg h0 (by norm_num)) hcoef
    · exact mul_le_mul_of_nonneg_right
        (div_le_div_of_nonneg_right h12 (by norm_num)) hcoef
    · have hdivle : p₂ / 100 ≤ 1 := (div_le_one (by norm_num)).mpr h100
      calc p₂ / 100 * (((sortAsc l).length : ℚ) - 1)
          ≤ 1 * (((sortAsc l).length : ℚ) - 1) :=
            mul_le_mul_of_nonneg_right hdivle hcoef
        _ = ((sortAsc l).length : ℚ) - 1 := one_mul _

lemma seqRecords_length (p : Option Int) (cs : List CommitInfo) :
    (seqRecords p cs).length = cs.length := by
  induction cs generalizing p with
  | nil => cases p <;> rfl
  | cons c cs ih => cases p <;> simp [seqRecords, ih]

lemma analyzeRecords_length (cs : List CommitInfo) :
    (analyzeRecords cs).length = cs.length :=
  seqRecords_length none cs

lemma seqRecords_cons_some (t : Int) (c : CommitInfo) (cs : List CommitInfo) :
    seqRecords (some t) (c :: cs) =
      stepRecord t c :: seqRecords (some (stepRecord t c).total) cs := rfl

lemma analyzeRecords_cons (c : CommitInfo) (cs : List CommitInfo) :
    analyzeRecords (c :: cs) =
      firstRecord c :: seqRecords (some (firstRecord c).total) cs := rfl

lemma seq_getD_succ (cs : List CommitInfo) (t : Int) (i : Nat)
    (h : i + 1 < cs.length) :
    (seqRecords (some t) cs).getD (i + 1) default =
      stepRecord ((seqRecords (some t) cs).getD i default).total
        (cs.getD (i + 1) default) := by
  induction cs generalizing t i with
  | nil => simp at h
  | cons c cs ih =>
    rw [seqRecords_cons_some]
    cases i with
    | zero =>
      cases cs with
      | nil => simp at h
      | cons c' cs' =>
        simp [List.getD_cons_succ, List.getD_cons_zero, seqRecords_cons_some]
    | succ i' =>
      have h' : i' + 1 < cs.length := by
        simp only [List.length_cons] at h
        omega
      simp only [List.getD_cons_succ]
      exact ih (stepRecord t c).total i' h'

lemma analyzeRecords_getD_succ (cs : List CommitInfo) (i : Nat)
    (h : i + 1 < cs.length) :
    (analyzeRecords cs).getD (i + 1) default =
      stepRecord ((analyzeRecords cs).getD i default).total
        (cs.getD (i + 1) default) := by
  cases cs with
  | nil => simp at h
  | cons c cs =>
    rw [analyzeRecords_cons]
    cases i with
    | zero =>
      cases cs with
      | nil => simp at h
      | cons c' cs' =>
        simp [List.getD_cons_succ, List.getD_cons_zero, seqRecords_cons_some]
    | succ i' =>
      have h' : i' + 1 < cs.length := by
        simp only [List.length_cons] at h
        omega
      simp only [List.getD_cons_succ]
      exact seq_getD_succ cs (firstRecord c).total i' h'

lemma seqRecords_pct_nonneg (cs : List CommitInfo) :
    ∀ p : Option Int, ∀ r ∈ seqRecords p cs, ∀ q : ℚ, r.pct = some q → 0 ≤ q := by
  induction cs with
  | nil =>
    intro p r hr
    cases p <;> simp [seqRecords] at hr
  | cons c cs ih =>
    intro p r hr q hq
    have hstep : ∀ t : Int, r = stepRecord t c → 0 ≤ q := by
      intro t hrt
      subst hrt
      by_cases ht : 0 < t
      · simp only [stepRecord, if_pos ht] at hq
        rw [Option.some_inj] at hq
        rw [← hq]
        have h1 : (0 : ℚ) ≤ ((c.added + c.deleted : ℕ) : ℚ) := Nat.cast_nonneg _
        have h2 : (0 : ℚ) < (t : ℚ) := Int.cast_pos.mpr ht
        exact mul_nonneg (div_nonneg h1 h2.le) (by norm_num)
      · simp only [stepRecord, if_neg ht] at hq
        exact absurd hq (by simp)
    cases p with
    | none =>
      rcases List.mem_cons.mp hr with hhr | hm
      · rw [hhr] at hq
        simp [firstRecord] at hq
      · exact ih _ r hm q hq
    | some t =>
      rw [seqRecords_cons_some] at hr
      rcases List.mem_cons.mp hr with hhr | hm
      · exact hstep t hhr
      · exact ih _ r hm q hq

lemma parse_foldl (L : List (List Char)) (a b : Nat) :
    L.foldl
        (fun acc line =>
          match splitOnChar '\t' line with
          | p0 :: p1 :: _ =>
            if pyIsdigit p0 && pyIsdigit p1 then (acc.1 + pyInt p0, acc.2 + pyInt p1)
            else acc
          | _ => acc)
        (a, b) =
      (a + ((L.map numstatLineContribution).foldr
          (fun x acc => (x.1 + acc.1, x.2 + acc.2)) (0, 0)).1,
        b + ((L.map numstatLineContribution).foldr
          (fun x acc => (x.1 + acc.1, x.2 + acc.2)) (0, 0)).2) := by
  induction L generalizing a b with
  | nil => simp
  | cons line L ih =>
    simp only [List.foldl_cons, List.map_cons, List.foldr_cons]
    rcases hsplit : splitOnChar '\t' line with _ | ⟨p0, _ | ⟨p1, rest⟩⟩
    · simp only [hsplit, numstatLineContribution]
      rw [ih]
      simp
    · simp only [hsplit, numstatLineContribution]
      rw [ih]
      simp
    · by_cases hd : pyIsdigit p0 && pyIsdigit p1
      · simp only [hsplit, numstatLineContribution, hd, if_true]
        rw [ih]
        simp [Nat.add_assoc]
      · simp only [hsplit, numstatLineContribution]
        rw [if_neg hd, if_neg hd, ih]
        simp

/-! ## Claims -/

/-- C1: `detect_ai_contribution` returns `"N/A"` exactly in the
zero-sample case; otherwise it classifies `pct = changes/total*100` when
`total > 0` and `pct = 0` when `total ≤ 0` (the value `classifierPct`):
`"Likely Human"` when `iqr ≤ 0`, and with `excess = (pct − q3)/iqr`,
`"Likely AI"` when `excess > 3`, `"Possible AI"` when `1.5 < excess ≤ 3`,
`"Likely Human"` when `excess ≤ 1.5`; in particular, for `q3 = 10` and
`iqr = 4`, `pct = 10` gives `"Likely Human"`, `pct = 17` gives
`"Possible AI"`, and `pct = 23` gives `"Likely AI"`. -/
theorem claim_C1 :
    (∀ changes total : ℚ,
      (0 < total → classifierPct changes total = changes / total * 100) ∧
        (total ≤ 0 → classifierPct changes total = 0)) ∧
    (∀ (changes total : ℚ) (st : Stats), st.pct_changes = [] →
      detect_ai_contribution changes total st = "N/A") ∧
    (∀ (changes total : ℚ) (st : Stats), st.pct_changes ≠ [] →
      st.pct_iqr ≤ 0 → detect_ai_contribution changes total st = "Likely Human") ∧
    (∀ (changes total : ℚ) (st : Stats), st.pct_changes ≠ [] →
      0 < st.pct_iqr →
      (3 < (classifierPct changes total - st.pct_q3) / st.pct_iqr →
          detect_ai_contribution changes total st = "Likely AI") ∧
        (1.5 < (classifierPct changes total - st.pct_q3) / st.pct_iqr →
            (classifierPct changes total - st.pct_q3) / st.pct_iqr ≤ 3 →
          detect_ai_contribution changes total st = "Possible AI") ∧
        ((classifierPct changes total - st.pct_q3) / st.pct_iqr ≤ 1.5 →
          detect_ai_contribution changes total st = "Likely Human")) ∧
    (∀ st : Stats, st.pct_changes ≠ [] → st.pct_q3 = 10 → st.pct_iqr = 4 →
      detect_ai_contribution 10 100 st = "Likely Human" ∧
        detect_ai_contribution 17 100 st = "Possible AI" ∧
        detect_ai_contribution 23 100 st = "Likely AI") := by
  refine ⟨?_, ?_, ?_, ?_, ?_⟩
  · intro changes total
    constructor
    · intro ht
      simp [classifierPct, ht]
    · intro ht
      simp [classifierPct, not_lt.mpr ht]
  · intro changes total st h
    simp [detect_ai_contribution, h]
  · intro changes total st h hiqr
    simp only [detect_ai_contribution, if_neg h]
    rw [if_neg (not_lt.mpr hiqr)]
  · intro changes total st h hiqr
    simp only [classifierPct]
    simp only [detect_ai_contribution, if_neg h, if_pos hiqr]
    refine ⟨?_, ?_, ?_⟩
    · intro h3
      rw [if_pos h3]
    · intro h15 h3
      rw [if_neg (not_lt.mpr h3), if_pos h15]
    · intro h15
      rw [if_neg (not_lt.mpr (le_trans h15 (by norm_num))),
        if_neg (not_lt.mpr h15)]
  · intro st h hq3 hiqr
    refine ⟨?_, ?_, ?_⟩ <;>
      · simp only [detect_ai_contribution, if_neg h, hq3, hiqr]
        norm_num

/-- C1 witness: the concrete classification `pct = 23`, `q3 = 10`,
`iqr = 4` is `"Likely AI"`. -/
theorem claim_C1_witness :
    detect_ai_contribution 23 100 (⟨0, 0, 0, 0, 0, [5], 8, 10, 4⟩ : Stats) =
      "Likely AI" :=
  (claim_C1.2.2.2.2 (⟨0, 0, 0, 0, 0, [5], 8, 10, 4⟩ : Stats)
    (by simp) rfl rfl).2.2

/-- C3: `parse_numstat` returns exactly the componentwise sum of the
per-line contributions — lines whose first two tab-separated fields are
digit strings contribute their values, every other line contributes
zero — and on the example input
`"3\t1\tfoo.py\n-\t-\tbinary.png\n5\t0\tbar.py"` it returns `(8, 1)`.
(The Lean model is a total function: no exception is possible on any
input.) -/
theorem claim_C3 :
    (∀ output : String, parse_numstat output = numstat_spec output) ∧
      parse_numstat "3\t1\tfoo.py\n-\t-\tbinary.png\n5\t0\tbar.py" = (8, 1) := by
  constructor
  · intro output
    unfold parse_numstat numstat_spec
    rw [parse_foldl]
    simp
  · decide

/-- C2: for a non-empty commit sequence, the record list has one record
per commit; the first record's `total` is `added[0]`; every later
record's `total` is the previous record's `total` plus `added` minus
`deleted`; and every record's `changed` is `added + deleted` (the first
from its full-snapshot numstat). -/
theorem claim_C2 (cs : List CommitInfo) (hne : cs ≠ []) :
    (analyzeRecords cs).length = cs.length ∧
    ((analyzeRecords cs).getD 0 default).total = ((cs.getD 0 default).added : Int) ∧
    (∀ i, i + 1 < cs.length →
      ((analyzeRecords cs).getD (i + 1) default).total =
        ((analyzeRecords cs).getD i default).total +
          ((cs.getD (i + 1) default).added : Int) -
          ((cs.getD (i + 1) default).deleted : Int)) ∧
    (∀ i, i < cs.length →
      ((analyzeRecords cs).getD i default).changes =
        (cs.getD i default).added + (cs.getD i default).deleted) := by
  obtain ⟨c, cs', rfl⟩ := List.exists_cons_of_ne_nil hne
  refine ⟨analyzeRecords_length _, rfl, ?_, ?_⟩
  · intro i hi
    rw [analyzeRecords_getD_succ _ i hi]
    rfl
  · intro i hi
    cases i with
    | zero => rfl
    | succ j =>
      rw [analyzeRecords_getD_succ _ j hi]
      rfl

/-- C2 witness: commits with numstats `(3,1)` then `(2,1)` give
`total[0] = 3`, `total[1] = total[0] + 2 − 1`, `changed[1] = 3`. -/
theorem claim_C2_witness :
    ((analyzeRecords [⟨"a", "d1", 3, 1⟩, ⟨"b", "d2", 2, 1⟩]).getD 1 default).total =
      ((analyzeRecords [⟨"a", "d1", 3, 1⟩, ⟨"b", "d2", 2, 1⟩]).getD 0 default).total +
        (2 : Int) - (1 : Int) :=
  (claim_C2 [⟨"a", "d1", 3, 1⟩, ⟨"b", "d2", 2, 1⟩] (by simp)).2.2.1 0 (by norm_num)

/-- C4: `pct` is `None` for the first record and, for a later record,
exactly when the previous record's `total` is not strictly positive;
otherwise it equals `changes / previousTotal * 100` exactly (the model
computes in `ℚ`, so the floating-point tolerance is not needed). -/
theorem claim_C4 :
    (∀ cs : List CommitInfo, cs ≠ [] →
      ((analyzeRecords cs).getD 0 default).pct = none) ∧
    (∀ (cs : List CommitInfo) (i : Nat), i + 1 < cs.length →
      (((analyzeRecords cs).getD (i + 1) default).pct = none ↔
        ((analyzeRecords cs).getD i default).total ≤ 0) ∧
      (0 < ((analyzeRecords cs).getD i default).total →
        ((analyzeRecords cs).getD (i + 1) default).pct =
          some ((((analyzeRecords cs).getD (i + 1) default).changes : ℚ) /
            (((analyzeRecords cs).getD i default).total : ℚ) * 100))) := by
  constructor
  · intro cs hne
    obtain ⟨c, cs', rfl⟩ := List.exists_cons_of_ne_nil hne
    rfl
  · intro cs i hi
    rw [analyzeRecords_getD_succ cs i hi]
    constructor
    · by_cases ht : 0 < ((analyzeRecords cs).getD i default).total
      · simp [stepRecord, ht, not_le.mpr ht]
      · simp [stepRecord, ht, not_lt.mp ht]
    · intro ht
      simp only [stepRecord, if_pos ht]

/-- C4 witness: for commits `(3,1)` then `(2,1)` the second record's
`pct` is `changed/previousTotal*100 = 3/3*100 = 100`. -/
theorem claim_C4_witness :
    ((analyzeRecords [⟨"a", "d1", 3, 1⟩, ⟨"b", "d2", 2, 1⟩]).getD 1 default).pct =
      some (100 : ℚ) := by
  have h := ((claim_C4.2 [⟨"a", "d1", 3, 1⟩, ⟨"b", "d2", 2, 1⟩] 0 (by norm_num)).2
    (by decide))
  rw [h]
  norm_num [analyzeRecords, seqRecords, firstRecord, stepRecord]

/-- C5: the code crashes on an empty commit list instead of completing
normally: the record list is empty and `calculate_statistics` returns the
empty dict (modelled `none`), but `print_statistics` then raises
`KeyError` on `stats['changes_mean']`, so the run errors out rather than
producing an empty report with an all-zero summary. -/
theorem claim_C5 :
    analyzeRecords [] = [] ∧
      calculate_statistics [] = none ∧
      analyzeRun [] = Except.error "KeyError: changes_mean" :=
  ⟨rfl, rfl, rfl⟩

/-- C6 counterexample: with numstat inputs `(1,0)` then `(0,5)` the
second reconstructed total is `1 + 0 − 5 = −4 < 0`, so it is false that
every record's total is non-negative. -/
theorem claim_C6_counterexample :
    ¬ ∀ r ∈ analyzeRecords [⟨"a", "d1", 1, 0⟩, ⟨"b", "d2", 0, 5⟩],
      0 ≤ r.total := by
  intro h
  have hm : (analyzeRecords [⟨"a", "d1", 1, 0⟩, ⟨"b", "d2", 0, 5⟩]).getD 1 default ∈
      analyzeRecords [⟨"a", "d1", 1, 0⟩, ⟨"b", "d2", 0, 5⟩] := by
    have hlen : 1 < (analyzeRecords [⟨"a", "d1", 1, 0⟩, ⟨"b", "d2", 0, 5⟩]).length := by
      rw [analyzeRecords_length]
      norm_num
    rw [List.getD_eq_getElem _ _ hlen]
    exact List.getElem_mem hlen
  have := h _ hm
  have hv : ((analyzeRecords [⟨"a", "d1", 1, 0⟩, ⟨"b", "d2", 0, 5⟩]).getD 1 default).total =
      (-4 : Int) := by decide
  rw [hv] at this
  exact absurd this (by decide)

/-- C6 (amended): every total is non-negative provided no commit deletes
more lines than the previous total plus its own additions; the first
record's total `added[0]` is always non-negative, but a later total is an
unclamped integer and can go negative when deletions exceed the running
count, as the counterexample shows. -/
theorem claim_C6_amended (cs : List CommitInfo)
    (hsafe : ∀ i, i + 1 < cs.length →
      ((cs.getD (i + 1) default).deleted : Int) ≤
        ((analyzeRecords cs).getD i default).total +
          ((cs.getD (i + 1) default).added : Int)) :
    ∀ i, i < cs.length → 0 ≤ ((analyzeRecords cs).getD i default).total := by
  intro i hi
  cases i with
  | zero =>
    obtain ⟨c, cs', rfl⟩ :=
      List.exists_cons_of_ne_nil (show cs ≠ [] by rintro rfl; simp at hi)
    exact Int.natCast_nonneg c.added
  | succ j =>
    rw [analyzeRecords_getD_succ cs j hi]
    have hj := hsafe j hi
    show 0 ≤ ((analyzeRecords cs).getD j default).total +
      ((cs.getD (j + 1) default).added : Int) - ((cs.getD (j + 1) default).deleted : Int)
    omega

/-- C6 witness: for commits `(3,1)` then `(2,1)` the deletion bound holds
at each step and the second total is non-negative. -/
theorem claim_C6_witness :
    0 ≤ ((analyzeRecords [⟨"a", "d1", 3, 1⟩, ⟨"b", "d2", 2, 1⟩]).getD 1 default).total :=
  claim_C6_amended [⟨"a", "d1", 3, 1⟩, ⟨"b", "d2", 2, 1⟩]
    (by
      intro i hi
      have hi0 : i = 0 := by simp at hi; omega
      subst hi0
      decide)
    1 (by norm_num)

/-- C7: every record's `changed` count is non-negative, and whenever its
`pct` is defined it is non-negative. -/
theorem claim_C7 (cs : List CommitInfo) :
    ∀ r ∈ analyzeRecords cs,
      0 ≤ (r.changes : Int) ∧ ∀ q : ℚ, r.pct = some q → 0 ≤ q := by
  intro r hr
  exact ⟨Int.natCast_nonneg _, seqRecords_pct_nonneg cs none r hr⟩

/-- C7 witness: the second record of the `(3,1)`, `(2,1)` run has
non-negative `changed` and non-negative defined `pct`. -/
theorem claim_C7_witness :
    0 ≤ ((((analyzeRecords [⟨"a", "d1", 3, 1⟩, ⟨"b", "d2", 2, 1⟩]).getD 1
        default)).changes : Int) ∧
      ∀ q : ℚ, ((analyzeRecords [⟨"a", "d1", 3, 1⟩, ⟨"b", "d2", 2, 1⟩]).getD 1
        default).pct = some q → 0 ≤ q :=
  claim_C7 [⟨"a", "d1", 3, 1⟩, ⟨"b", "d2", 2, 1⟩] _
    (by
      have hlen : 1 < (analyzeRecords [⟨"a", "d1", 3, 1⟩, ⟨"b", "d2", 2, 1⟩]).length := by
        rw [analyzeRecords_length]
        norm_num
      rw [List.getD_eq_getElem _ _ hlen]
      exact List.getElem_mem hlen)

/-- C9: the analysis is deterministic — two runs over identical commit
identifier/timestamp/numstat inputs produce identical records, labels and
summary statistics. -/
theorem claim_C9 (cs₁ cs₂ : List CommitInfo) (h : cs₁ = cs₂) :
    analyzeRun cs₁ = analyzeRun cs₂ := by
  rw [h]

/-- C9 witness: two runs on the same concrete two-commit input coincide. -/
theorem claim_C9_witness :
    analyzeRun [⟨"a", "d1", 3, 1⟩, ⟨"b", "d2", 2, 1⟩] =
      analyzeRun [⟨"a", "d1", 3, 1⟩, ⟨"b", "d2", 2, 1⟩] :=
  claim_C9 [⟨"a", "d1", 3, 1⟩, ⟨"b", "d2", 2, 1⟩]
    [⟨"a", "d1", 3, 1⟩, ⟨"b", "d2", 2, 1⟩] rfl

/-- C10: `analyze` invokes the classifier with the record's own `changes`
and `total`, so the percentage it classifies is
`changed/total[i]*100` (`classifierPct`), while the record's stored
`pct` is `changed/total[i−1]*100`; when both totals are positive and
`added ≠ deleted` the two percentages differ. -/
theorem claim_C10 (cs : List CommitInfo) (i : Nat) (h : i + 1 < cs.length)
    (hprev : 0 < ((analyzeRecords cs).getD i default).total)
    (hcur : 0 < ((analyzeRecords cs).getD (i + 1) default).total)
    (hne : (cs.getD (i + 1) default).added ≠ (cs.getD (i + 1) default).deleted) :
    (∀ st : Stats,
      commitLabel st ((analyzeRecords cs).getD (i + 1) default) =
        detect_ai_contribution
          (((analyzeRecords cs).getD (i + 1) default).changes : ℚ)
          (((analyzeRecords cs).getD (i + 1) default).total : ℚ) st) ∧
    ∃ q : ℚ, ((analyzeRecords cs).getD (i + 1) default).pct = some q ∧
      classifierPct (((analyzeRecords cs).getD (i + 1) default).changes : ℚ)
        (((analyzeRecords cs).getD (i + 1) default).total : ℚ) ≠ q := by
  refine ⟨fun st => rfl, ?_⟩
  rw [analyzeRecords_getD_succ cs i h] at hcur ⊢
  set t := ((analyzeRecords cs).getD i default).total with htdef
  set c := cs.getD (i + 1) default with hcdef
  have hcurT : 0 < t + (c.added : Int) - (c.deleted : Int) := hcur
  have htq : (0 : ℚ) < (t : ℚ) := Int.cast_pos.mpr hprev
  have hTq : (0 : ℚ) < ((t + (c.added : Int) - (c.deleted : Int) : Int) : ℚ) :=
    Int.cast_pos.mpr hcurT
  have hX : (0 : ℚ) < ((c.added + c.deleted : ℕ) : ℚ) := by
    have : 0 < c.added + c.deleted := by omega
    exact_mod_cast this
  refine ⟨((c.added + c.deleted : ℕ) : ℚ) / (t : ℚ) * 100, ?_, ?_⟩
  · simp only [stepRecord, if_pos hprev]
  · intro hEq
    have hcls : classifierPct (((stepRecord t c).changes : ℕ) : ℚ)
        (((stepRecord t c).total : Int) : ℚ) =
        ((c.added + c.deleted : ℕ) : ℚ) /
          ((t + (c.added : Int) - (c.deleted : Int) : Int) : ℚ) * 100 := by
      simp only [classifierPct, stepRecord]
      rw [if_pos hTq]
    rw [hcls] at hEq
    have h100 : (100 : ℚ) ≠ 0 := by norm_num
    have h1 : ((c.added + c.deleted : ℕ) : ℚ) /
        ((t + (c.added : Int) - (c.deleted : Int) : Int) : ℚ) =
        ((c.added + c.deleted : ℕ) : ℚ) / (t : ℚ) :=
      mul_right_cancel₀ h100 hEq
    have h2 : ((c.added + c.deleted : ℕ) : ℚ) * (t : ℚ) =
        ((c.added + c.deleted : ℕ) : ℚ) *
          ((t + (c.added : Int) - (c.deleted : Int) : Int) : ℚ) :=
      (div_eq_div_iff hTq.ne' htq.ne').mp h1
    have h3 : (t : ℚ) = ((t + (c.added : Int) - (c.deleted : Int) : Int) : ℚ) :=
      mul_left_cancel₀ hX.ne' h2
    have h4 : t = t + (c.added : Int) - (c.deleted : Int) := by exact_mod_cast h3
    have : (c.added : Int) = (c.deleted : Int) := by omega
    exact hne (by exact_mod_cast this)

/-- C10 witness: for commits `(3,0)` then `(2,1)` (previous total `3`,
current total `4`), the classifier's percentage differs from the stored
`pct`. -/
theorem claim_C10_witness :
    (∀ st : Stats,
      commitLabel st ((analyzeRecords [⟨"a", "d1", 3, 0⟩, ⟨"b", "d2", 2, 1⟩]).getD 1 default) =
        detect_ai_contribution
          (((analyzeRecords [⟨"a", "d1", 3, 0⟩, ⟨"b", "d2", 2, 1⟩]).getD 1 default).changes : ℚ)
          (((analyzeRecords [⟨"a", "d1", 3, 0⟩, ⟨"b", "d2", 2, 1⟩]).getD 1 default).total : ℚ) st) ∧
    ∃ q : ℚ,
      ((analyzeRecords [⟨"a", "d1", 3, 0⟩, ⟨"b", "d2", 2, 1⟩]).getD 1 default).pct = some q ∧
        classifierPct
          (((analyzeRecords [⟨"a", "d1", 3, 0⟩, ⟨"b", "d2", 2, 1⟩]).getD 1 default).changes : ℚ)
          (((analyzeRecords [⟨"a", "d1", 3, 0⟩, ⟨"b", "d2", 2, 1⟩]).getD 1 default).total : ℚ) ≠ q :=
  claim_C10 [⟨"a", "d1", 3, 0⟩, ⟨"b", "d2", 2, 1⟩] 0 (by norm_num)
    (by decide) (by decide) (by decide)

/-- C8: for every sample set the computed quartiles satisfy `q1 ≤ q3`
and `iqr = q3 − q1 ≥ 0`; with zero defined percent-change samples the
quartile/IQR fields are zero; the standard-deviation entries are zero
when fewer than two values are available and otherwise use the sample
`(n−1)` denominator (stated on the variance, the square of
`statistics.stdev`). -/
theorem claim_C8 :
    (∀ l : List ℚ, l ≠ [] → percentile l 25 ≤ percentile l 75) ∧
    (∀ (data : List CommitRecord) (st : Stats),
      calculate_statistics data = some st →
      st.pct_q1 ≤ st.pct_q3 ∧ st.pct_iqr = st.pct_q3 - st.pct_q1 ∧
        0 ≤ st.pct_iqr) ∧
    (∀ (data : List CommitRecord) (st : Stats),
      calculate_statistics data = some st → st.pct_changes = [] →
      st.pct_q1 = 0 ∧ st.pct_q3 = 0 ∧ st.pct_iqr = 0) ∧
    (∀ (data : List CommitRecord) (st : Stats),
      calculate_statistics data = some st →
      (st.pct_changes.length ≤ 1 → st.pct_var = 0) ∧
        (data.length ≤ 1 → st.changes_var = 0) ∧
        (2 ≤ st.pct_changes.length → st.pct_var = sampleVar st.pct_changes)) ∧
    (∀ l : List ℚ, 2 ≤ l.length →
      sampleVar l * ((l.length : ℚ) - 1) =
        (l.map (fun x => (x - listMean l) ^ 2)).sum) := by
  refine ⟨?_, ?_, ?_, ?_, ?_⟩
  · intro l _
    exact percentile_mono l (by norm_num) (by norm_num) (by norm_num)
  · intro data st h
    by_cases hd : data = []
    · rw [hd] at h
      exact absurd h (by simp [calculate_statistics])
    · simp only [calculate_statistics, if_neg hd, Option.some_inj] at h
      subst h
      have hq : (if 0 < (data.filterMap fun d => d.pct).length then
            percentile (data.filterMap fun d => d.pct) 25 else 0) ≤
          (if 0 < (data.filterMap fun d => d.pct).length then
            percentile (data.filterMap fun d => d.pct) 75 else 0) := by
        by_cases hp : 0 < (data.filterMap fun d => d.pct).length
        · rw [if_pos hp, if_pos hp]
          exact percentile_mono _ (by norm_num) (by norm_num) (by norm_num)
        · rw [if_neg hp, if_neg hp]
      exact ⟨hq, rfl, sub_nonneg.mpr hq⟩
  · intro data st h hpe
    by_cases hd : data = []
    · rw [hd] at h
      exact absurd h (by simp [calculate_statistics])
    · simp only [calculate_statistics, if_neg hd, Option.some_inj] at h
      subst h
      simp only at hpe
      refine ⟨?_, ?_, ?_⟩ <;> simp [hpe]
  · intro data st h
    by_cases hd : data = []
    · rw [hd] at h
      exact absurd h (by simp [calculate_statistics])
    · simp only [calculate_statistics, if_neg hd, Option.some_inj] at h
      subst h
      refine ⟨?_, ?_, ?_⟩
      · intro hlen
        simp only at hlen
        simp [Nat.not_lt.mpr hlen]
      · intro hlen
        have hno : ¬ 1 < data.length := by omega
        simp [List.length_map, hno]
      · intro hlen
        simp only at hlen
        simp [Nat.lt_of_lt_of_le Nat.one_lt_two hlen]
  · intro l hl
    have hne : ((l.length : ℚ) - 1) ≠ 0 := by
      have : (2 : ℚ) ≤ (l.length : ℚ) := by exact_mod_cast hl
      intro hzero
      rw [sub_eq_zero] at hzero
      rw [hzero] at this
      norm_num at this
    unfold sampleVar
    exact div_mul_cancel₀ _ hne

/-- C8 witness: the singleton sample `[70]` has `q1 ≤ q3`. -/
theorem claim_C8_witness :
    percentile [(70 : ℚ)] 25 ≤ percentile [(70 : ℚ)] 75 :=
  claim_C8.1 [(70 : ℚ)] (by simp)
